import Mathlib

/-!
Shallow embedding of the core of the `rust-rays` path tracer
(src/vec.rs, src/point.rs, src/ray.rs, src/sphere.rs, src/plane.rs,
src/scene.rs, src/distribution.rs, src/material.rs, src/rays.rs).
`f32` values are modelled as real numbers, `f32::sqrt` as `Real.sqrt`.
Rust's early returns become `Option` matches; trait objects become
function-valued fields.
-/

namespace RustRays

/-- `Vec3` from src/vec.rs: a 3-component vector. -/
structure Vec3 where
  x : ℝ
  y : ℝ
  z : ℝ

/-- Componentwise addition (`impl Add<Vec3> for Vec3`). -/
def Vec3.add (a b : Vec3) : Vec3 := ⟨a.x + b.x, a.y + b.y, a.z + b.z⟩

/-- Componentwise subtraction (`impl Sub<Vec3> for Vec3`). -/
def Vec3.sub (a b : Vec3) : Vec3 := ⟨a.x - b.x, a.y - b.y, a.z - b.z⟩

/-- Componentwise negation (`-v`, used by `DiffuseDist::sample` and `Specular::reflect`). -/
def Vec3.neg (a : Vec3) : Vec3 := ⟨-a.x, -a.y, -a.z⟩

/-- Scaling by a scalar (`impl Mul<f32> for Vec3`). -/
def Vec3.scale (a : Vec3) (c : ℝ) : Vec3 := ⟨a.x * c, a.y * c, a.z * c⟩

/-- Dot product (`Vec3::dot`). -/
def Vec3.dot (a b : Vec3) : ℝ := a.x * b.x + a.y * b.y + a.z * b.z

/-- Squared magnitude (`Vec3::mag2`). -/
def Vec3.mag2 (a : Vec3) : ℝ := a.dot a

/-- `Point3` from src/point.rs: an affine position wrapping a `Vec3`. -/
structure Point3 where
  inner : Vec3

/-- `Point3 - Point3 = Vec3` (`impl Sub<Point3> for Point3`). -/
def Point3.sub (a b : Point3) : Vec3 := a.inner.sub b.inner

/-- `Point3 + Vec3 = Point3` (`impl Add<Vec3> for Point3`). -/
def Point3.addVec (p : Point3) (v : Vec3) : Point3 := ⟨p.inner.add v⟩

/-- `Ray3` from src/ray.rs: an origin point and a direction vector. -/
structure Ray3 where
  start : Point3
  dir : Vec3

/-- `Intersection` from src/scene.rs: hit time, emitted radiance and the
not-yet-sampled reflection distribution. -/
structure Intersection (Out : Type u) where
  time : ℝ
  emitted : ℝ
  reflection : Out

/-- `Intersection::map_dist`. -/
def Intersection.map_dist (it : Intersection A) (f : A → B) : Intersection B :=
  ⟨it.time, it.emitted, f it.reflection⟩

/-- `SphereSource` from src/sphere.rs: the sphere's object identity. -/
inductive SphereSource where
  | Inside
  | Outside
deriving DecidableEq

/-- A `Material` (src/material.rs) together with the `Reflection` trait method
of its reflection value: `reflect(incoming, normal, point, object)` returns the
outgoing distribution, and `emitted_radiance` is the emission. -/
structure Material (Id : Type u) (Out : Type v) where
  reflect : Vec3 → Vec3 → Point3 → Id → Out
  emitted_radiance : ℝ

/-- `Sphere` from src/sphere.rs. -/
structure Sphere (Out : Type u) where
  center : Point3
  radius : ℝ
  material : Material SphereSource Out

/-- The vector `offset = ray.start - self.center` of `Sphere::intersect`. -/
def sphereOffset (s : Sphere Out) (ray : Ray3) : Vec3 :=
  ray.start.sub s.center

/-- The coefficient `b = 2 * offset.dot(ray.dir)` of `Sphere::intersect`. -/
def sphereB (s : Sphere Out) (ray : Ray3) : ℝ :=
  2 * (sphereOffset s ray).dot ray.dir

/-- The coefficient `c = offset.mag2() - radius*radius` of `Sphere::intersect`. -/
def sphereC (s : Sphere Out) (ray : Ray3) : ℝ :=
  (sphereOffset s ray).mag2 - s.radius * s.radius

/-- The discriminant `descrim = b*b - 4*a*c` of `Sphere::intersect`
(with `a = ray.dir.mag2()`). -/
def sphereDescrim (s : Sphere Out) (ray : Ray3) : ℝ :=
  sphereB s ray * sphereB s ray - 4 * ray.dir.mag2 * sphereC s ray

/-- The nearer root `t1 = (-b - descrim.sqrt()) / (2*a)` of `Sphere::intersect`. -/
noncomputable def sphereT1 (s : Sphere Out) (ray : Ray3) : ℝ :=
  (-sphereB s ray - Real.sqrt (sphereDescrim s ray)) / (2 * ray.dir.mag2)

/-- The farther root `t2 = (-b + descrim.sqrt()) / (2*a)` of `Sphere::intersect`. -/
noncomputable def sphereT2 (s : Sphere Out) (ray : Ray3) : ℝ :=
  (-sphereB s ray + Real.sqrt (sphereDescrim s ray)) / (2 * ray.dir.mag2)

/-- `Sphere::intersect` from src/sphere.rs (also duplicated in src/rays.rs):
the `Scene` implementation for a sphere.  Early `return None`s become the
`none` branches; the selected time is threaded through an `Option`. -/
noncomputable def Sphere.intersect (s : Sphere Out) (ray : Ray3)
    (previous : Option SphereSource) : Option (Intersection Out) :=
  if previous = some SphereSource.Outside then none
  else if sphereDescrim s ray < 0 then none
  else
    let timeOpt : Option ℝ :=
      if previous = none ∧ 0 < sphereT1 s ray then some (sphereT1 s ray)
      else if 0 < sphereT2 s ray then some (sphereT2 s ray)
      else none
    match timeOpt with
    | none => none
    | some time =>
      let p := ray.start.addVec (ray.dir.scale time)
      let normal := p.sub s.center
      some { time := time
             emitted := s.material.emitted_radiance
             reflection := s.material.reflect ray.dir normal p
               (previous.getD
                 (if sphereC s ray < 0 then SphereSource.Inside
                  else SphereSource.Outside)) }

/-- `Plane` from src/plane.rs. -/
structure Plane (Out : Type u) where
  origin : Point3
  normal : Vec3
  material : Material Unit Out

/-- The divisor `ray.dir.dot(self.normal)` of `Plane::intersect`. -/
def planeDivisor (pl : Plane Out) (ray : Ray3) : ℝ :=
  ray.dir.dot pl.normal

/-- The time `-offset.dot(self.normal) / divisor` of `Plane::intersect`. -/
noncomputable def planeTime (pl : Plane Out) (ray : Ray3) : ℝ :=
  -((ray.start.sub pl.origin).dot pl.normal) / planeDivisor pl ray

/-- `Plane::intersect` from src/plane.rs (also duplicated in src/rays.rs). -/
noncomputable def Plane.intersect (pl : Plane Out) (ray : Ray3)
    (previous : Option Unit) : Option (Intersection Out) :=
  match previous with
  | some _ => none
  | none =>
    if planeDivisor pl ray = 0 then none
    else if 0 < planeTime pl ray then
      let point := ray.start.addVec (ray.dir.scale (planeTime pl ray))
      some { time := planeTime pl ray
             emitted := pl.material.emitted_radiance
             reflection := pl.material.reflect ray.dir pl.normal point () }
    else none

/-- `Choice` from src/scene.rs: the disjoint union used both as paired object
identity and as paired outgoing distribution. -/
inductive Choice (A : Type u) (B : Type v) where
  | OptA : A → Choice A B
  | OptB : B → Choice A B

/-- The routing of the previous identity to the first component in
`Scene for (A, B)::intersect`: `Some(OptA(aid))` becomes `Some(aid)`,
everything else becomes `None`. -/
def routeA : Option (Choice A B) → Option A
  | some (Choice.OptA i) => some i
  | _ => none

/-- The routing of the previous identity to the second component in
`Scene for (A, B)::intersect`. -/
def routeB : Option (Choice A B) → Option B
  | some (Choice.OptB i) => some i
  | _ => none

/-- `Scene for (A, B)::intersect` from src/scene.rs: query both sides with the
routed previous identity and keep the nearer hit. -/
noncomputable def pairIntersect (sa : Ray3 → Option α → Option (Intersection A))
    (sb : Ray3 → Option β → Option (Intersection B))
    (ray : Ray3) (previous : Option (Choice α β)) :
    Option (Intersection (Choice A B)) :=
  match sa ray (routeA previous), sb ray (routeB previous) with
  | some ai, some bi =>
    if ai.time < bi.time then some (ai.map_dist Choice.OptA)
    else some (bi.map_dist Choice.OptB)
  | some ai, none => some (ai.map_dist Choice.OptA)
  | none, some bi => some (bi.map_dist Choice.OptB)
  | none, none => none

/-- `TagObject` from src/scene.rs: a distribution paired with the list index
that produced it. -/
structure TagObject (T : Type u) (Dist : Type v) where
  tag : T
  dist : Dist

/-- The routing of the previous identity to list slot `id` in
`Scene for [T]::intersect`: only the slot whose index matches receives the
inner previous identity. -/
def routeIdx (previous : Option (ℕ × α)) (id : ℕ) : Option α :=
  match previous with
  | some (pi, po) => if pi = id then some po else none
  | none => none

/-- The loop of `Scene for [T]::intersect` from src/scene.rs, enumerating the
slots from index `id` with the running best hit `best`. -/
noncomputable def listIntersectGo (ray : Ray3) (previous : Option (ℕ × α)) :
    ℕ → List (Ray3 → Option α → Option (Intersection A)) →
    Option (Intersection (TagObject ℕ A)) → Option (Intersection (TagObject ℕ A))
  | _, [], best => best
  | id, obj :: rest, best =>
    let best2 :=
      match obj ray (routeIdx previous id) with
      | some intersection =>
        match best with
        | some cur_best =>
          if intersection.time < cur_best.time then
            some (intersection.map_dist fun d => ⟨id, d⟩)
          else best
        | none => some (intersection.map_dist fun d => ⟨id, d⟩)
      | none => best
    listIntersectGo ray previous (id + 1) rest best2

/-- `Scene for [T]::intersect` from src/scene.rs. -/
noncomputable def listIntersect (l : List (Ray3 → Option α → Option (Intersection A)))
    (ray : Ray3) (previous : Option (ℕ × α)) :
    Option (Intersection (TagObject ℕ A)) :=
  listIntersectGo ray previous 0 l none

/-- Spec-side helper (from the spec's words, for the nearest-hit claim): the
minimum of two optional hit times, `none` when both are absent. -/
noncomputable def optMinTime : Option ℝ → Option ℝ → Option ℝ
  | none, b => b
  | some a, none => some a
  | some a, some b => some (min a b)

/-- Spec-side helper: the optional hit times of the sub-nodes of a list
composition, the slot at index `id` onward, each queried with the routed
previous identity. -/
noncomputable def subHitTimesFrom (ray : Ray3) (previous : Option (ℕ × α)) :
    ℕ → List (Ray3 → Option α → Option (Intersection A)) → List (Option ℝ)
  | _, [] => []
  | id, obj :: rest =>
    (obj ray (routeIdx previous id)).map Intersection.time ::
      subHitTimesFrom ray previous (id + 1) rest

/-- The abstract random source: `R` is the generator's state type, `next`
models one `rng.gen::<f32>()` / `rng.next_f32()` call, returning the drawn
value and the advanced state (Rust mutates the generator in place). -/
structure RngModel (R : Type u) where
  next : R → ℝ × R

/-- The stream of values the random source will produce from state `r`. -/
def RngModel.outputs (M : RngModel R) : R → ℕ → ℝ
  | r, 0 => (M.next r).1
  | r, n + 1 => RngModel.outputs M (M.next r).2 n

/-- The `Distribution` trait from src/distribution.rs, shallowly embedded:
`sample` is generic over the random source (`fn sample<R: Rng>`), takes the
source's state and returns the sampled output with the advanced state. -/
abbrev DistM (O : Type u) : Type (max 1 u) :=
  ∀ {R : Type}, RngModel R → R → O × R

/-- `Const::sample` from src/distribution.rs: always the stored value,
consuming no randomness. -/
def constDist (v : O) : DistM O := fun _ r => (v, r)

/-- `Map::sample` from src/distribution.rs: sample the inner distribution and
apply the function. -/
def mapDist (inner : DistM A) (f : A → B) : DistM B :=
  fun M r => (f (inner M r).1, (inner M r).2)

/-- `Or::sample` from src/distribution.rs: draw one value; if it is below
`prob_2` sample the second distribution, otherwise the first. -/
noncomputable def orDist (inner1 inner2 : DistM O) (prob2 : ℝ) : DistM O :=
  fun M r =>
    if (M.next r).1 < prob2 then inner2 M (M.next r).2
    else inner1 M (M.next r).2

/-- `Pair::sample` from src/distribution.rs: sample the first then the second
distribution, returning both. -/
def pairDist (first : DistM A) (second : DistM B) : DistM (A × B) :=
  fun M r =>
    ((((first M r).1, (second M (first M r).2).1)), (second M (first M r).2).2)

/-- `Choice::sample` from src/scene.rs: sample the wrapped distribution and
re-tag the returned object identity into the disjoint union. -/
def choiceDist (c : Choice (DistM (ℝ × Ray3 × αA)) (DistM (ℝ × Ray3 × αB))) :
    DistM (ℝ × Ray3 × Choice αA αB) :=
  fun M r =>
    match c with
    | Choice.OptA a =>
      ((((a M r).1.1, (a M r).1.2.1, Choice.OptA (a M r).1.2.2)), (a M r).2)
    | Choice.OptB b =>
      ((((b M r).1.1, (b M r).1.2.1, Choice.OptB (b M r).1.2.2)), (b M r).2)

/-- `TagObject::sample` from src/scene.rs: sample the wrapped distribution and
pair the returned object identity with the stored tag. -/
def tagObjectDist (t : T) (dist : DistM (ℝ × Ray3 × O)) :
    DistM (ℝ × Ray3 × (T × O)) :=
  fun M r =>
    ((((dist M r).1.1, (dist M r).1.2.1, (t, (dist M r).1.2.2))), (dist M r).2)

/-- `rand_sphere` inside `DiffuseDist::sample` (src/material.rs), as a
function of the two uniform draws `u1` (the `Range::new(-1., 1.)` sample,
`z = -1 + u1 * 2`) and `u2` (the `Range::new(0., PI_2)` sample,
`angle = u2 * 2π`). -/
noncomputable def diffCand (u1 u2 : ℝ) : Vec3 :=
  let z := -1 + u1 * 2
  let rad := Real.sqrt (1 - z * z)
  let angle := u2 * (2 * Real.pi)
  ⟨rad * Real.cos angle, rad * Real.sin angle, z⟩

/-- The chosen direction of `DiffuseDist::sample`: the candidate, negated when
it lies on the back side of the normal. -/
noncomputable def diffDir (normal : Vec3) (u1 u2 : ℝ) : Vec3 :=
  if (diffCand u1 u2).dot normal < 0 then (diffCand u1 u2).neg
  else diffCand u1 u2

/-- The weight `scale = dir.dot(normal) / normal.mag2().sqrt()` of
`DiffuseDist::sample`. -/
noncomputable def diffScale (normal : Vec3) (u1 u2 : ℝ) : ℝ :=
  (diffDir normal u1 u2).dot normal / Real.sqrt normal.mag2

/-- `DiffuseDist::sample` from src/material.rs: draw `u1` and `u2` from the
source and return the weight, the outgoing ray from the stored hit point and
the stored object identity. -/
noncomputable def diffuseDist (point : Point3) (normal : Vec3) (obj : α) :
    DistM (ℝ × Ray3 × α) :=
  fun M r =>
    ((diffScale normal (M.next r).1 (M.next (M.next r).2).1,
      ⟨point, diffDir normal (M.next r).1 (M.next (M.next r).2).1⟩, obj),
     (M.next (M.next r).2).2)

/-- `Specular::reflect` from src/material.rs: the returned `Const`
distribution sampling weight 1, the reflected ray and the unchanged object. -/
noncomputable def specularReflect (incoming normal : Vec3) (point : Point3)
    (obj : α) : DistM (ℝ × Ray3 × α) :=
  let projected := normal.scale (incoming.dot normal / normal.mag2)
  constDist (1, ⟨point, (incoming.neg).sub (projected.scale 2)⟩, obj)

/-- Spec-side helper (from the spec's words, for the specular claim): the
mirror reflection identity `reflect(d, n) = d - 2 (d.dot n / n.mag2) n`. -/
noncomputable def specMirror (d n : Vec3) : Vec3 :=
  d.sub (n.scale (2 * (d.dot n) / n.mag2))

/-- The per-path bounce loop of `main` in src/rays.rs, with explicit fuel (the
Rust loop is unbounded; every claim about it is fuel-stable).  State: current
ray, previous object identity, throughput `scale`, accumulated `total_light`,
and the random source state.  Returns the accumulated light and the final
source state. -/
noncomputable def pathLoop (M : RngModel R)
    (scene : Ray3 → Option α → Option (Intersection (DistM (ℝ × Ray3 × α)))) :
    ℕ → Ray3 → Option α → ℝ → ℝ → R → ℝ × R
  | 0, _, _, _, total, r => (total, r)
  | Nat.succ fuel, ray, prevObj, scale, total, r =>
    match scene ray prevObj with
    | none => (total, r)
    | some intersection =>
      let total1 := total + scale * intersection.emitted
      let out := intersection.reflection M r
      let reflected := out.1.1
      let newRay := out.1.2.1
      let obj := out.1.2.2
      let r1 := out.2
      if 0.2 < scale then
        pathLoop M scene fuel newRay (some obj) (scale * reflected) total1 r1
      else
        let u := (M.next r1).1
        let r2 := (M.next r1).2
        if reflected < u then (total1, r2)
        else pathLoop M scene fuel newRay (some obj) scale total1 r2

/-- The sizes of the chunks produced by `img_data.chunks_mut(csize)` in `main`
(src/rays.rs): successive chunks of `csize` elements, the last chunk holding
the remainder.  The first argument is fuel, always instantiated with the
length itself. -/
def chunkSizesAux (csize : ℕ) : ℕ → ℕ → List ℕ
  | _, 0 => []
  | 0, _ + 1 => []
  | fuel + 1, len + 1 =>
    if len + 1 ≤ csize then [len + 1]
    else csize :: chunkSizesAux csize fuel (len + 1 - csize)

/-- The chunk sizes of `chunks_mut(csize)` on a slice of length `len`. -/
def chunkSizes (csize len : ℕ) : List ℕ := chunkSizesAux csize len len

/-- The tile scheduler of `main` (src/rays.rs): the pixel buffer of length
`len` is split with `chunk_size = len / num_threads + 1`. -/
def schedulerChunks (len numThreads : ℕ) : List ℕ :=
  chunkSizes (len / numThreads + 1) len

/-- The contiguous index blocks covered by a list of chunk sizes laid out
consecutively from offset `off` (the layout `chunks_mut` produces). -/
def blocks : ℕ → List ℕ → List (List ℕ)
  | _, [] => []
  | off, s :: rest => List.range' off s :: blocks (off + s) rest

/-- Spec-side purity predicate (from the spec's words, for the
pure-sampling claim): a sampler is pure when, run on any two random sources
producing identical output streams, it returns identical results and leaves
the two sources with identical remaining output streams. -/
def PureSampler (d : DistM O) : Prop :=
  ∀ {R1 R2 : Type} (M1 : RngModel R1) (M2 : RngModel R2) (r1 : R1) (r2 : R2),
    (∀ n, M1.outputs r1 n = M2.outputs r2 n) →
    (d M1 r1).1 = (d M2 r2).1 ∧
      ∀ n, M1.outputs (d M1 r1).2 n = M2.outputs (d M2 r2).2 n

/-! Helper lemmas. -/

theorem sqrt_four : Real.sqrt 4 = 2 := by
  rw [show (4 : ℝ) = 2 ^ 2 by norm_num, Real.sqrt_sq (by norm_num : (0 : ℝ) ≤ 2)]

/-- A sphere query whose previous identity is `Outside` always misses
(first guard of `Sphere::intersect`). -/
theorem sphere_intersect_outside_none (s : Sphere Out) (ray : Ray3) :
    s.intersect ray (some SphereSource.Outside) = none := by
  simp [Sphere.intersect]

/-! Claim theorems. -/

/-- **C3.** `Plane::intersect` returns a hit exactly when the previous
identity is absent, the divisor `ray.dir.dot normal` is nonzero and the
computed time is strictly positive; the returned hit time is then that time,
and in every other case the result is `none`. -/
theorem plane_intersect_characterization (pl : Plane Out) (ray : Ray3)
    (previous : Option Unit) :
    (previous ≠ none → pl.intersect ray previous = none) ∧
    (planeDivisor pl ray = 0 → pl.intersect ray previous = none) ∧
    (¬ 0 < planeTime pl ray → pl.intersect ray previous = none) ∧
    (previous = none → planeDivisor pl ray ≠ 0 → 0 < planeTime pl ray →
      Option.map Intersection.time (pl.intersect ray previous) =
        some (planeTime pl ray)) := by
  cases previous with
  | some u => simp [Plane.intersect]
  | none =>
    refine ⟨by simp, ?_, ?_, ?_⟩
    · intro h
      simp [Plane.intersect, h]
    · intro h
      by_cases hdiv : planeDivisor pl ray = 0 <;> simp [Plane.intersect, hdiv, h]
    · intro _ h2 h3
      simp [Plane.intersect, h2, h3]

/-- Witness for C3 at a concrete plane and ray: the plane at `z = 8` with
normal `(0,0,1)`, queried by the ray from the origin along `+z` with no
previous identity, reports the hit time `planeTime`. -/
theorem plane_intersect_characterization_witness :
    Option.map Intersection.time
        ((Plane.mk ⟨⟨0, 0, 8⟩⟩ ⟨0, 0, 1⟩ ⟨fun _ _ _ _ => PUnit.unit, 0⟩).intersect
          ⟨⟨⟨0, 0, 0⟩⟩, ⟨0, 0, 1⟩⟩ none) =
      some (planeTime (Plane.mk ⟨⟨0, 0, 8⟩⟩ ⟨0, 0, 1⟩ ⟨fun _ _ _ _ => PUnit.unit, 0⟩)
          ⟨⟨⟨0, 0, 0⟩⟩, ⟨0, 0, 1⟩⟩) :=
  (plane_intersect_characterization _ _ _).2.2.2 rfl
    (by norm_num [planeDivisor, Vec3.dot])
    (by norm_num [planeTime, planeDivisor, Vec3.dot, Point3.sub, Vec3.sub])

/-- **C1.** `Sphere::intersect` misses when the previous identity is
`Outside`; otherwise it misses when the discriminant is negative; otherwise
the hit time is `t1` exactly when there was no previous identity and
`t1 > 0`, else `t2` when `t2 > 0`, and there is no hit when neither
condition holds. -/
theorem sphere_intersect_root_selection (s : Sphere Out) (ray : Ray3)
    (previous : Option SphereSource) :
    (previous = some SphereSource.Outside → s.intersect ray previous = none) ∧
    (previous ≠ some SphereSource.Outside → sphereDescrim s ray < 0 →
      s.intersect ray previous = none) ∧
    (previous ≠ some SphereSource.Outside → 0 ≤ sphereDescrim s ray →
      ((previous = none ∧ 0 < sphereT1 s ray →
        Option.map Intersection.time (s.intersect ray previous) =
          some (sphereT1 s ray)) ∧
       (¬ (previous = none ∧ 0 < sphereT1 s ray) → 0 < sphereT2 s ray →
        Option.map Intersection.time (s.intersect ray previous) =
          some (sphereT2 s ray)) ∧
       (¬ (previous = none ∧ 0 < sphereT1 s ray) → ¬ 0 < sphereT2 s ray →
        s.intersect ray previous = none))) := by
  refine ⟨fun h => by simp [Sphere.intersect, h], ?_, ?_⟩
  · intro h hd
    simp [Sphere.intersect, h, hd]
  · intro h hd
    have hd2 : ¬ sphereDescrim s ray < 0 := not_lt.mpr hd
    refine ⟨?_, ?_, ?_⟩
    · intro h1
      simp [Sphere.intersect, h, hd2, h1]
    · intro h1 h2
      simp [Sphere.intersect, h, hd2, h1, h2]
    · intro h1 h2
      simp [Sphere.intersect, h, hd2, h1, h2]

/-- The camera ray of the end-to-end scenario: origin, direction `+z`. -/
def cam0 : Ray3 := ⟨⟨⟨0, 0, 0⟩⟩, ⟨0, 0, 1⟩⟩

/-- The unit sphere centered at `(0, 0, 5)` with material `m`. -/
def sph5 (m : Material SphereSource Out) : Sphere Out := ⟨⟨⟨0, 0, 5⟩⟩, 1, m⟩

theorem sph5_descrim (m : Material SphereSource Out) :
    sphereDescrim (sph5 m) cam0 = 4 := by
  norm_num [sphereDescrim, sphereB, sphereC, sphereOffset, Point3.sub, Vec3.sub,
    Vec3.dot, Vec3.mag2, sph5, cam0]

theorem sph5_t1 (m : Material SphereSource Out) : sphereT1 (sph5 m) cam0 = 4 := by
  rw [sphereT1, sph5_descrim, sqrt_four]
  norm_num [sphereB, sphereOffset, Point3.sub, Vec3.sub, Vec3.dot, Vec3.mag2,
    sph5, cam0]

theorem sph5_c (m : Material SphereSource Out) : sphereC (sph5 m) cam0 = 24 := by
  norm_num [sphereC, sphereOffset, Point3.sub, Vec3.sub, Vec3.dot, Vec3.mag2,
    sph5, cam0]

/-- Full evaluation of `Sphere::intersect` for the unit sphere at `(0,0,5)`
queried by the camera ray along `+z` with no previous identity: hit at time 4,
the reflection built from the incoming direction, the outward normal
`(0,0,-1)`, the hit point `(0,0,4)` and the identity `Outside`. -/
theorem sph5_eval (m : Material SphereSource Out) :
    (sph5 m).intersect cam0 none =
      some ⟨4, m.emitted_radiance,
        m.reflect ⟨0, 0, 1⟩ ⟨0, 0, -1⟩ ⟨⟨0, 0, 4⟩⟩ SphereSource.Outside⟩ := by
  have hd : ¬ sphereDescrim (sph5 m) cam0 < 0 := by rw [sph5_descrim]; norm_num
  have ht1 : 0 < sphereT1 (sph5 m) cam0 := by rw [sph5_t1]; norm_num
  have hc : ¬ sphereC (sph5 m) cam0 < 0 := by rw [sph5_c]; norm_num
  have h4 : sphereT1 (sph5 m) cam0 = 4 := sph5_t1 m
  simp only [Sphere.intersect, hd, ht1, h4, hc, and_true, if_true, if_false,
    reduceCtorEq, ite_false, ite_true, eq_self_iff_true, Option.getD_none]
  norm_num [sph5, cam0, Point3.addVec, Vec3.add, Vec3.scale, Point3.sub,
    Vec3.sub]

/-- A material whose reflection records nothing (used to instantiate
witnesses). -/
def matPUnit : Material SphereSource PUnit := ⟨fun _ _ _ _ => PUnit.unit, 0⟩

/-- A material whose reflection records the object identity handed to it. -/
def matRecord : Material SphereSource SphereSource := ⟨fun _ _ _ o => o, 0⟩

/-- Witness for C1: the unit sphere at `(0,0,5)` queried by the camera ray
with no previous identity reports the nearer root `t1`. -/
theorem sphere_intersect_root_selection_witness :
    Option.map Intersection.time ((sph5 matPUnit).intersect cam0 none) =
      some (sphereT1 (sph5 matPUnit) cam0) :=
  ((sphere_intersect_root_selection (sph5 matPUnit) cam0 none).2.2
      (by simp) (by rw [sph5_descrim]; norm_num)).1
    ⟨rfl, by rw [sph5_t1]; norm_num⟩

/-- **C10.** When `Sphere::intersect` hits with no previous identity, the
identity handed to the reflection is `Inside` exactly when `c < 0`; when it
hits with previous identity `Inside`, the identity handed on is `Inside`
unconditionally. -/
theorem sphere_intersect_identity (s : Sphere Out) (ray : Ray3) :
    (∀ it, s.intersect ray none = some it →
      it.reflection = s.material.reflect ray.dir
        ((ray.start.addVec (ray.dir.scale it.time)).sub s.center)
        (ray.start.addVec (ray.dir.scale it.time))
        (if sphereC s ray < 0 then SphereSource.Inside
         else SphereSource.Outside)) ∧
    (∀ it, s.intersect ray (some SphereSource.Inside) = some it →
      it.reflection = s.material.reflect ray.dir
        ((ray.start.addVec (ray.dir.scale it.time)).sub s.center)
        (ray.start.addVec (ray.dir.scale it.time))
        SphereSource.Inside) := by
  constructor
  · intro it h
    by_cases hd : sphereDescrim s ray < 0
    · simp [Sphere.intersect, hd] at h
    · by_cases ht1 : 0 < sphereT1 s ray
      · simp [Sphere.intersect, hd, ht1] at h
        subst h
        rfl
      · by_cases ht2 : 0 < sphereT2 s ray
        · simp [Sphere.intersect, hd, ht1, ht2] at h
          subst h
          rfl
        · simp [Sphere.intersect, hd, ht1, ht2] at h
  · intro it h
    by_cases hd : sphereDescrim s ray < 0
    · simp [Sphere.intersect, hd] at h
    · by_cases ht2 : 0 < sphereT2 s ray
      · simp [Sphere.intersect, hd, ht2] at h
        subst h
        rfl
      · simp [Sphere.intersect, hd, ht2] at h

/-- Witness for C10: on the concrete hit of the recording sphere the identity
handed to the reflection is `Outside`, matching `c = 24 ≥ 0`. -/
theorem sphere_intersect_identity_witness :
    (⟨4, 0, SphereSource.Outside⟩ : Intersection SphereSource).reflection =
      (sph5 matRecord).material.reflect cam0.dir
        ((cam0.start.addVec (cam0.dir.scale
          (⟨4, 0, SphereSource.Outside⟩ : Intersection SphereSource).time)).sub
            (sph5 matRecord).center)
        (cam0.start.addVec (cam0.dir.scale
          (⟨4, 0, SphereSource.Outside⟩ : Intersection SphereSource).time))
        (if sphereC (sph5 matRecord) cam0 < 0 then SphereSource.Inside
         else SphereSource.Outside) :=
  (sphere_intersect_identity (sph5 matRecord) cam0).1
    ⟨4, 0, SphereSource.Outside⟩ (sph5_eval matRecord)

/-- Helper: the running best of the list-composition loop evolves by taking
the optional minimum with each slot's hit time. -/
theorem listIntersectGo_time (ray : Ray3) (previous : Option (ℕ × α)) :
    ∀ (l : List (Ray3 → Option α → Option (Intersection A))) (id : ℕ)
      (best : Option (Intersection (TagObject ℕ A))),
      Option.map Intersection.time (listIntersectGo ray previous id l best) =
        List.foldl optMinTime (Option.map Intersection.time best)
          (subHitTimesFrom ray previous id l) := by
  intro l
  induction l with
  | nil => intro id best; rfl
  | cons obj rest ih =>
    intro id best
    rw [listIntersectGo, subHitTimesFrom, List.foldl_cons, ih]
    congr 1
    cases hobj : obj ray (routeIdx previous id) with
    | none => cases best <;> simp [optMinTime]
    | some it =>
      cases best with
      | none => simp [optMinTime, Intersection.map_dist]
      | some cur =>
        by_cases hlt : it.time < cur.time
        · simp [optMinTime, Intersection.map_dist, hlt, min_eq_right (le_of_lt hlt)]
        · simp [optMinTime, Intersection.map_dist, hlt,
            min_eq_left (not_lt.mp hlt)]

/-- **C2.** For the pair composition and the list composition, the returned
hit time is the minimum of the hit times of the sub-nodes queried with the
routed previous identity, and the composition misses exactly when every
sub-node misses. -/
theorem composition_nearest_hit :
    (∀ (α β A B : Type) (sa : Ray3 → Option α → Option (Intersection A))
        (sb : Ray3 → Option β → Option (Intersection B)) (ray : Ray3)
        (previous : Option (Choice α β)),
      Option.map Intersection.time (pairIntersect sa sb ray previous) =
        optMinTime (Option.map Intersection.time (sa ray (routeA previous)))
          (Option.map Intersection.time (sb ray (routeB previous)))) ∧
    (∀ (α A : Type) (l : List (Ray3 → Option α → Option (Intersection A)))
        (ray : Ray3) (previous : Option (ℕ × α)),
      Option.map Intersection.time (listIntersect l ray previous) =
        List.foldl optMinTime none (subHitTimesFrom ray previous 0 l)) := by
  constructor
  · intro α β A B sa sb ray previous
    cases ha : sa ray (routeA previous) with
    | none =>
      cases hb : sb ray (routeB previous) with
      | none => simp [pairIntersect, ha, hb, optMinTime]
      | some bi => simp [pairIntersect, ha, hb, optMinTime, Intersection.map_dist]
    | some ai =>
      cases hb : sb ray (routeB previous) with
      | none => simp [pairIntersect, ha, hb, optMinTime, Intersection.map_dist]
      | some bi =>
        by_cases hlt : ai.time < bi.time
        · simp [pairIntersect, ha, hb, optMinTime, Intersection.map_dist, hlt,
            min_eq_left (le_of_lt hlt)]
        · simp [pairIntersect, ha, hb, optMinTime, Intersection.map_dist, hlt,
            min_eq_right (not_lt.mp hlt)]
  · intro α A l ray previous
    have h := listIntersectGo_time ray previous l 0 none
    simpa [listIntersect] using h

/-- **C4.** One iteration of the bounce loop after a hit: with throughput
`scale > 0.2` the path continues unconditionally with `scale * weight`; with
`scale ≤ 0.2` one value is drawn and the path continues with unchanged scale
exactly when the draw is at most the weight, terminating otherwise. -/
theorem roulette_step {R α : Type} (M : RngModel R)
    (scene : Ray3 → Option α → Option (Intersection (DistM (ℝ × Ray3 × α))))
    (fuel : ℕ) (ray : Ray3) (prevObj : Option α) (scale total : ℝ) (r : R)
    (it : Intersection (DistM (ℝ × Ray3 × α)))
    (h : scene ray prevObj = some it) :
    (0.2 < scale →
      pathLoop M scene (fuel + 1) ray prevObj scale total r =
        pathLoop M scene fuel (it.reflection M r).1.2.1
          (some (it.reflection M r).1.2.2) (scale * (it.reflection M r).1.1)
          (total + scale * it.emitted) (it.reflection M r).2) ∧
    (scale ≤ 0.2 →
      ((M.next (it.reflection M r).2).1 ≤ (it.reflection M r).1.1 →
        pathLoop M scene (fuel + 1) ray prevObj scale total r =
          pathLoop M scene fuel (it.reflection M r).1.2.1
            (some (it.reflection M r).1.2.2) scale
            (total + scale * it.emitted) (M.next (it.reflection M r).2).2) ∧
      ((it.reflection M r).1.1 < (M.next (it.reflection M r).2).1 →
        pathLoop M scene (fuel + 1) ray prevObj scale total r =
          (total + scale * it.emitted, (M.next (it.reflection M r).2).2))) := by
  refine ⟨?_, fun hs => ⟨?_, ?_⟩⟩
  · intro hs
    simp [pathLoop, h, hs]
  · intro hu
    have hs2 : ¬ 0.2 < scale := not_lt.mpr hs
    have hu2 : ¬ (it.reflection M r).1.1 < (M.next (it.reflection M r).2).1 :=
      not_lt.mpr hu
    simp [pathLoop, h, hs2, hu2]
  · intro hu
    have hs2 : ¬ 0.2 < scale := not_lt.mpr hs
    simp [pathLoop, h, hs2, hu]

/-- A deterministic random-source model over `ℕ` states, always drawing
`1/3`, used to instantiate witnesses. -/
noncomputable def stepRng : RngModel ℕ := ⟨fun n => (1 / 3, n + 1)⟩

/-- A constant one-hit scene used for the roulette witness: every query hits
at time 1 with emission 5 and a `Const` reflection of weight `1/2`. -/
noncomputable def constHitScene :
    Ray3 → Option PUnit → Option (Intersection (DistM (ℝ × Ray3 × PUnit))) :=
  fun _ _ => some ⟨1, 5, constDist (1 / 2, cam0, PUnit.unit)⟩

/-- Witness for C4: with `scale = 1/10 ≤ 0.2` and draw `1/3 ≤ 1/2` the loop
continues with the scale unchanged. -/
theorem roulette_step_witness :
    pathLoop stepRng constHitScene 1 cam0 none (1 / 10) 0 0 =
      pathLoop stepRng constHitScene 0 cam0 (some PUnit.unit) (1 / 10)
        (0 + (1 / 10) * 5) 1 :=
  (((roulette_step stepRng constHitScene 0 cam0 none (1 / 10) 0 0
      ⟨1, 5, constDist (1 / 2, cam0, PUnit.unit)⟩ rfl).2
    (by norm_num)).1 (by norm_num [stepRng, constDist]))

/-- The material of the end-to-end scenario: `Diffuse` reflection (whose
`reflect` ignores the incoming direction) with emitted radiance `e`. -/
noncomputable def diffMat (e : ℝ) :
    Material SphereSource (DistM (ℝ × Ray3 × SphereSource)) :=
  ⟨fun _ normal point obj => diffuseDist point normal obj, e⟩

/-- The end-to-end scene: a single emissive diffuse unit sphere at
`(0,0,5)` with emitted radiance 10. -/
noncomputable def emissiveSphereScene :
    Ray3 → Option SphereSource →
      Option (Intersection (DistM (ℝ × Ray3 × SphereSource))) :=
  fun ray prev => (sph5 (diffMat 10)).intersect ray prev

/-- **C7.** For the single emissive sphere scene and the camera ray from the
origin along `+z`, one path sample accumulates exactly 10, for every random
source: the first bounce contributes `1 * 10`, the returned identity is
`Outside`, and the next query is blocked by the self-intersection guard. -/
theorem end_to_end_radiance {R : Type} (M : RngModel R) (r : R) (fuel : ℕ) :
    (pathLoop M emissiveSphereScene (fuel + 2) cam0 none 1 0 r).1 = 10 := by
  have h1 : emissiveSphereScene cam0 none =
      some ⟨4, 10, diffuseDist ⟨⟨0, 0, 4⟩⟩ ⟨0, 0, -1⟩ SphereSource.Outside⟩ := by
    simpa [emissiveSphereScene, diffMat] using sph5_eval (diffMat 10)
  have h2 : ∀ ray2, emissiveSphereScene ray2 (some SphereSource.Outside) = none :=
    fun ray2 => sphere_intersect_outside_none _ ray2
  have hobj :
      (diffuseDist ⟨⟨0, 0, 4⟩⟩ ⟨0, 0, -1⟩ SphereSource.Outside M r).1.2.2 =
        SphereSource.Outside := rfl
  have h3 : (0.2 : ℝ) < 1 := by norm_num
  rw [show fuel + 2 = (fuel + 1) + 1 from rfl]
  simp only [pathLoop, h1, hobj, h2, h3, if_true, ite_true]
  norm_num

/-! Vector arithmetic lemmas used by the sampling claims. -/

theorem Vec3.neg_dot (a b : Vec3) : (a.neg).dot b = -(a.dot b) := by
  simp only [Vec3.neg, Vec3.dot]
  ring

theorem Vec3.mag2_neg (a : Vec3) : (a.neg).mag2 = a.mag2 := by
  simp only [Vec3.mag2, Vec3.neg, Vec3.dot]
  ring

theorem Vec3.dot_sq_le (a b : Vec3) :
    a.dot b * a.dot b ≤ a.mag2 * b.mag2 := by
  simp only [Vec3.mag2, Vec3.dot]
  nlinarith [sq_nonneg (a.x * b.y - a.y * b.x), sq_nonneg (a.x * b.z - a.z * b.x),
    sq_nonneg (a.y * b.z - a.z * b.y)]

theorem Vec3.mag2_nonneg (a : Vec3) : 0 ≤ a.mag2 := by
  simp only [Vec3.mag2, Vec3.dot]
  nlinarith [sq_nonneg a.x, sq_nonneg a.y, sq_nonneg a.z]

theorem Vec3.eq_zero_of_mag2_eq_zero (a : Vec3) (h0 : a.mag2 = 0) :
    a = ⟨0, 0, 0⟩ := by
  simp only [Vec3.mag2, Vec3.dot] at h0
  have hx : a.x = 0 := by nlinarith [sq_nonneg a.x, sq_nonneg a.y, sq_nonneg a.z]
  have hy : a.y = 0 := by nlinarith [sq_nonneg a.x, sq_nonneg a.y, sq_nonneg a.z]
  have hz : a.z = 0 := by nlinarith [sq_nonneg a.x, sq_nonneg a.y, sq_nonneg a.z]
  cases a
  simp_all

theorem Vec3.mag2_pos (a : Vec3) (h : a ≠ ⟨0, 0, 0⟩) : 0 < a.mag2 :=
  lt_of_le_of_ne (Vec3.mag2_nonneg a)
    (fun heq => h (Vec3.eq_zero_of_mag2_eq_zero a heq.symm))

/-- The candidate direction of `rand_sphere` is a unit vector whenever the
first draw lies in `[0, 1)`. -/
theorem diffCand_mag2 (u1 u2 : ℝ) (h0 : 0 ≤ u1) (h1 : u1 < 1) :
    (diffCand u1 u2).mag2 = 1 := by
  simp only [diffCand, Vec3.mag2, Vec3.dot]
  have hz : (-1 + u1 * 2) * (-1 + u1 * 2) ≤ 1 := by nlinarith
  have hrad : Real.sqrt (1 - (-1 + u1 * 2) * (-1 + u1 * 2)) *
      Real.sqrt (1 - (-1 + u1 * 2) * (-1 + u1 * 2)) =
        1 - (-1 + u1 * 2) * (-1 + u1 * 2) :=
    Real.mul_self_sqrt (by linarith)
  have hp := Real.sin_sq_add_cos_sq (u2 * (2 * Real.pi))
  nlinarith [hrad, hp]

/-- The chosen direction of `DiffuseDist::sample` never points below the
surface: its dot product with the normal is nonnegative. -/
theorem diffDir_dot_nonneg (normal : Vec3) (u1 u2 : ℝ) :
    0 ≤ (diffDir normal u1 u2).dot normal := by
  rw [diffDir]
  split
  · rw [Vec3.neg_dot]
    linarith
  · linarith [not_lt.mp (by assumption : ¬ (diffCand u1 u2).dot normal < 0)]

theorem diffDir_mag2 (normal : Vec3) (u1 u2 : ℝ) (h0 : 0 ≤ u1) (h1 : u1 < 1) :
    (diffDir normal u1 u2).mag2 = 1 := by
  rw [diffDir]
  split
  · rw [Vec3.mag2_neg]
    exact diffCand_mag2 u1 u2 h0 h1
  · exact diffCand_mag2 u1 u2 h0 h1

/-- **C5.** Sampling the diffuse reflection distribution yields a ray that
starts at the stored hit point, a direction in the hemisphere above the
surface, the weight `dir.dot normal / |normal|` lying in `[0, 1]`, and the
unchanged object identity, for every random source producing values in
`[0, 1)` and every nonzero normal. -/
theorem diffuse_sample_props {α : Type} (point : Point3) (normal : Vec3)
    (obj : α) {R : Type} (M : RngModel R) (r : R)
    (hn : normal ≠ ⟨0, 0, 0⟩)
    (hM : ∀ s : R, 0 ≤ (M.next s).1 ∧ (M.next s).1 < 1) :
    (diffuseDist point normal obj M r).1.2.1.start = point ∧
    0 ≤ (diffuseDist point normal obj M r).1.2.1.dir.dot normal ∧
    (diffuseDist point normal obj M r).1.1 =
      (diffuseDist point normal obj M r).1.2.1.dir.dot normal /
        Real.sqrt normal.mag2 ∧
    0 ≤ (diffuseDist point normal obj M r).1.1 ∧
    (diffuseDist point normal obj M r).1.1 ≤ 1 ∧
    (diffuseDist point normal obj M r).1.2.2 = obj := by
  obtain ⟨hu0, hu1⟩ := hM r
  have hmagpos : 0 < normal.mag2 := Vec3.mag2_pos normal hn
  have hsqpos : 0 < Real.sqrt normal.mag2 := Real.sqrt_pos.mpr hmagpos
  have hdot := diffDir_dot_nonneg normal (M.next r).1 (M.next (M.next r).2).1
  have hdm := diffDir_mag2 normal (M.next r).1 (M.next (M.next r).2).1 hu0 hu1
  have hcs := Vec3.dot_sq_le (diffDir normal (M.next r).1 (M.next (M.next r).2).1)
    normal
  rw [hdm, one_mul] at hcs
  have hle : (diffDir normal (M.next r).1 (M.next (M.next r).2).1).dot normal ≤
      Real.sqrt normal.mag2 := by
    have h1 : (diffDir normal (M.next r).1 (M.next (M.next r).2).1).dot normal =
        Real.sqrt ((diffDir normal (M.next r).1 (M.next (M.next r).2).1).dot
          normal * (diffDir normal (M.next r).1 (M.next (M.next r).2).1).dot
            normal) := (Real.sqrt_mul_self hdot).symm
    rw [h1]
    exact Real.sqrt_le_sqrt hcs
  refine ⟨rfl, hdot, rfl, ?_, ?_, rfl⟩
  · exact div_nonneg hdot (le_of_lt hsqpos)
  · rw [show (diffuseDist point normal obj M r).1.1 =
      diffScale normal (M.next r).1 (M.next (M.next r).2).1 from rfl, diffScale]
    exact (div_le_one hsqpos).mpr hle

/-- A random-source model over `Unit` drawing the constant `1/2`. -/
noncomputable def halfRng : RngModel PUnit := ⟨fun _ => (1 / 2, PUnit.unit)⟩

/-- Witness for C5 at a concrete normal, hit point, identity and random
source. -/
theorem diffuse_sample_props_witness :
    (diffuseDist ⟨⟨0, 0, 4⟩⟩ ⟨0, 0, -1⟩ SphereSource.Outside halfRng
        PUnit.unit).1.2.1.start = ⟨⟨0, 0, 4⟩⟩ ∧
    0 ≤ (diffuseDist ⟨⟨0, 0, 4⟩⟩ ⟨0, 0, -1⟩ SphereSource.Outside halfRng
        PUnit.unit).1.2.1.dir.dot ⟨0, 0, -1⟩ ∧
    (diffuseDist ⟨⟨0, 0, 4⟩⟩ ⟨0, 0, -1⟩ SphereSource.Outside halfRng
        PUnit.unit).1.1 =
      (diffuseDist ⟨⟨0, 0, 4⟩⟩ ⟨0, 0, -1⟩ SphereSource.Outside halfRng
        PUnit.unit).1.2.1.dir.dot ⟨0, 0, -1⟩ /
          Real.sqrt (Vec3.mag2 ⟨0, 0, -1⟩) ∧
    0 ≤ (diffuseDist ⟨⟨0, 0, 4⟩⟩ ⟨0, 0, -1⟩ SphereSource.Outside halfRng
        PUnit.unit).1.1 ∧
    (diffuseDist ⟨⟨0, 0, 4⟩⟩ ⟨0, 0, -1⟩ SphereSource.Outside halfRng
        PUnit.unit).1.1 ≤ 1 ∧
    (diffuseDist ⟨⟨0, 0, 4⟩⟩ ⟨0, 0, -1⟩ SphereSource.Outside halfRng
        PUnit.unit).1.2.2 = SphereSource.Outside :=
  diffuse_sample_props ⟨⟨0, 0, 4⟩⟩ ⟨0, 0, -1⟩ SphereSource.Outside halfRng
    PUnit.unit (by simp) (fun _ => by norm_num [halfRng])

/-- **C6 (amended).** Sampling the specular reflection distribution is fully
deterministic: for every random source and state it returns weight exactly 1,
the ray from the hit point with direction
`-incoming - 2 * (incoming.dot normal / normal.mag2) * normal`, the unchanged
object identity, and the unchanged source state. -/
theorem specular_deterministic {α R : Type} (incoming normal : Vec3)
    (point : Point3) (obj : α) (M : RngModel R) (r : R) :
    specularReflect incoming normal point obj M r =
      ((1, ⟨point, (incoming.neg).sub
          ((normal.scale (incoming.dot normal / normal.mag2)).scale 2)⟩, obj),
        r) := rfl

/-- Counterexample for C6: at `incoming = (1,0,-1)`, `normal = (0,0,1)` the
direction the code returns is `(-1,0,3)`, which is neither the mirror
reflection `incoming - 2 (incoming.dot n / |n|^2) n = (1,0,1)` nor its
negation. -/
theorem specular_not_mirror :
    ((specularReflect (⟨1, 0, -1⟩ : Vec3) ⟨0, 0, 1⟩ ⟨⟨0, 0, 0⟩⟩ PUnit.unit)
        halfRng PUnit.unit).1.2.1.dir = ⟨-1, 0, 3⟩ ∧
    specMirror ⟨1, 0, -1⟩ ⟨0, 0, 1⟩ = ⟨1, 0, 1⟩ ∧
    ((⟨-1, 0, 3⟩ : Vec3) ≠ ⟨1, 0, 1⟩) ∧
    ((⟨-1, 0, 3⟩ : Vec3) ≠ (⟨1, 0, 1⟩ : Vec3).neg) := by
  refine ⟨?_, ?_, ?_, ?_⟩
  · norm_num [specularReflect, constDist, Vec3.neg, Vec3.sub, Vec3.scale,
      Vec3.dot, Vec3.mag2]
  · norm_num [specMirror, Vec3.sub, Vec3.scale, Vec3.dot, Vec3.mag2]
  · simp only [ne_eq, Vec3.mk.injEq, not_and]
    norm_num
  · simp only [ne_eq, Vec3.neg, Vec3.mk.injEq, not_and]
    norm_num

theorem RngModel.outputs_zero (M : RngModel R) (r : R) :
    M.outputs r 0 = (M.next r).1 := rfl

theorem RngModel.outputs_succ (M : RngModel R) (r : R) (n : ℕ) :
    M.outputs r (n + 1) = M.outputs (M.next r).2 n := rfl

/-- **C8.** Every distribution in the code samples purely: `Const`, `Map`,
`Or`, `Pair`, `DiffuseDist`, the specular `Const`, `Choice` and `TagObject`
are all functions of the random source's next outputs alone — run on two
sources producing identical output streams they return identical results and
leave identical remaining streams, and combinators preserve this. -/
theorem distribution_sampling_pure :
    (∀ (O : Type) (v : O), PureSampler (constDist v)) ∧
    (∀ (A B : Type) (d : DistM A) (f : A → B),
      PureSampler d → PureSampler (mapDist d f)) ∧
    (∀ (O : Type) (a b : DistM O) (p : ℝ),
      PureSampler a → PureSampler b → PureSampler (orDist a b p)) ∧
    (∀ (A B : Type) (a : DistM A) (b : DistM B),
      PureSampler a → PureSampler b → PureSampler (pairDist a b)) ∧
    (∀ (α : Type) (point : Point3) (normal : Vec3) (obj : α),
      PureSampler (diffuseDist point normal obj)) ∧
    (∀ (α : Type) (incoming normal : Vec3) (point : Point3) (obj : α),
      PureSampler (specularReflect incoming normal point obj)) ∧
    (∀ (αA αB : Type) (a : DistM (ℝ × Ray3 × αA)), PureSampler a →
      PureSampler (choiceDist (Choice.OptA a :
        Choice (DistM (ℝ × Ray3 × αA)) (DistM (ℝ × Ray3 × αB))))) ∧
    (∀ (αA αB : Type) (b : DistM (ℝ × Ray3 × αB)), PureSampler b →
      PureSampler (choiceDist (Choice.OptB b :
        Choice (DistM (ℝ × Ray3 × αA)) (DistM (ℝ × Ray3 × αB))))) ∧
    (∀ (T O : Type) (t : T) (d : DistM (ℝ × Ray3 × O)), PureSampler d →
      PureSampler (tagObjectDist t d)) := by
  refine ⟨?_, ?_, ?_, ?_, ?_, ?_, ?_, ?_, ?_⟩
  · intro O v R1 R2 M1 M2 r1 r2 h
    exact ⟨rfl, h⟩
  · intro A B d f hd R1 R2 M1 M2 r1 r2 h
    obtain ⟨h1, h2⟩ := hd M1 M2 r1 r2 h
    exact ⟨by simp only [mapDist, h1], h2⟩
  · intro O a b p ha hb R1 R2 M1 M2 r1 r2 h
    have h0 : (M1.next r1).1 = (M2.next r2).1 := h 0
    have htail : ∀ n, M1.outputs (M1.next r1).2 n = M2.outputs (M2.next r2).2 n :=
      fun n => h (n + 1)
    by_cases hcond : (M1.next r1).1 < p
    · have hcond2 : (M2.next r2).1 < p := h0 ▸ hcond
      simp only [orDist, if_pos hcond, if_pos hcond2]
      exact hb M1 M2 _ _ htail
    · have hcond2 : ¬ (M2.next r2).1 < p := h0 ▸ hcond
      simp only [orDist, if_neg hcond, if_neg hcond2]
      exact ha M1 M2 _ _ htail
  · intro A B a b ha hb R1 R2 M1 M2 r1 r2 h
    obtain ⟨ha1, ha2⟩ := ha M1 M2 r1 r2 h
    obtain ⟨hb1, hb2⟩ := hb M1 M2 (a M1 r1).2 (a M2 r2).2 ha2
    refine ⟨?_, hb2⟩
    simp only [pairDist, Prod.mk.injEq]
    exact ⟨ha1, hb1⟩
  · intro α point normal obj R1 R2 M1 M2 r1 r2 h
    have h0 : (M1.next r1).1 = (M2.next r2).1 := h 0
    have h1 : (M1.next (M1.next r1).2).1 = (M2.next (M2.next r2).2).1 := h 1
    constructor
    · simp only [diffuseDist, h0, h1]
    · exact fun n => h (n + 2)
  · intro α incoming normal point obj R1 R2 M1 M2 r1 r2 h
    exact ⟨rfl, h⟩
  · intro αA αB a ha R1 R2 M1 M2 r1 r2 h
    obtain ⟨h1, h2⟩ := ha M1 M2 r1 r2 h
    exact ⟨by simp only [choiceDist, h1], h2⟩
  · intro αA αB b hb R1 R2 M1 M2 r1 r2 h
    obtain ⟨h1, h2⟩ := hb M1 M2 r1 r2 h
    exact ⟨by simp only [choiceDist, h1], h2⟩
  · intro T O t d hd R1 R2 M1 M2 r1 r2 h
    obtain ⟨h1, h2⟩ := hd M1 M2 r1 r2 h
    exact ⟨by simp only [tagObjectDist, h1], h2⟩

/-- Witness for C8: purity of a concrete composite distribution, a `Map` over
a `Const`, derived by the combinator closure properties. -/
theorem distribution_sampling_pure_witness :
    PureSampler (mapDist (constDist (5 : ℕ)) (fun k => k + 1)) :=
  distribution_sampling_pure.2.1 ℕ ℕ (constDist 5) (fun k => k + 1)
    (distribution_sampling_pure.1 ℕ 5)

/-! Chunk partition lemmas. -/

theorem chunkSizesAux_sum (csize : ℕ) (hc : 0 < csize) :
    ∀ fuel len, len ≤ fuel → (chunkSizesAux csize fuel len).sum = len := by
  intro fuel
  induction fuel with
  | zero =>
    intro len h
    obtain rfl := Nat.le_zero.mp h
    rfl
  | succ f ih =>
    intro len h
    cases len with
    | zero => rfl
    | succ m =>
      simp only [chunkSizesAux]
      split
      · simp
      · rename_i h2
        rw [List.sum_cons, ih (m + 1 - csize) (by omega)]
        omega

theorem chunkSizesAux_le (csize : ℕ) (hc : 0 < csize) :
    ∀ fuel len, len ≤ fuel → ∀ x ∈ chunkSizesAux csize fuel len, x ≤ csize := by
  intro fuel
  induction fuel with
  | zero =>
    intro len h
    obtain rfl := Nat.le_zero.mp h
    intro x hx
    simp [chunkSizesAux] at hx
  | succ f ih =>
    intro len h
    cases len with
    | zero => intro x hx; simp [chunkSizesAux] at hx
    | succ m =>
      by_cases h2 : m + 1 ≤ csize
      · simp only [chunkSizesAux, if_pos h2]
        intro x hx
        simp at hx
        omega
      · simp only [chunkSizesAux, if_neg h2]
        intro x hx
        rcases List.mem_cons.mp hx with h3 | h3
        · omega
        · exact ih (m + 1 - csize) (by omega) x h3

theorem chunkSizesAux_getD (csize : ℕ) (hc : 0 < csize) :
    ∀ fuel len, len ≤ fuel →
      ∀ i, i + 1 < (chunkSizesAux csize fuel len).length →
        (chunkSizesAux csize fuel len).getD i 0 = csize := by
  intro fuel
  induction fuel with
  | zero =>
    intro len h
    obtain rfl := Nat.le_zero.mp h
    intro i hi
    simp [chunkSizesAux] at hi
  | succ f ih =>
    intro len h
    cases len with
    | zero => intro i hi; simp [chunkSizesAux] at hi
    | succ m =>
      by_cases h2 : m + 1 ≤ csize
      · simp only [chunkSizesAux, if_pos h2]
        intro i hi
        simp at hi
      · simp only [chunkSizesAux, if_neg h2]
        intro i hi
        cases i with
        | zero => rfl
        | succ j =>
          simp only [List.getD_cons_succ]
          simp only [List.length_cons] at hi
          exact ih (m + 1 - csize) (by omega) j (by omega)

theorem chunkSizesAux_length_le (csize : ℕ) (hc : 0 < csize) :
    ∀ fuel len k, len ≤ fuel → len ≤ csize * k →
      (chunkSizesAux csize fuel len).length ≤ k := by
  intro fuel
  induction fuel with
  | zero =>
    intro len k h hk
    obtain rfl := Nat.le_zero.mp h
    simp [chunkSizesAux]
  | succ f ih =>
    intro len k h hk
    cases len with
    | zero => simp [chunkSizesAux]
    | succ m =>
      cases k with
      | zero =>
        rw [Nat.mul_zero] at hk
        omega
      | succ k2 =>
        simp only [chunkSizesAux]
        split
        · simp
        · rename_i h2
          simp only [List.length_cons]
          have hmul : csize * (k2 + 1) = csize * k2 + csize := Nat.mul_succ csize k2
          rw [hmul] at hk
          have hk2 : m + 1 - csize ≤ csize * k2 := by
            generalize csize * k2 = q at hk ⊢
            omega
          exact Nat.add_le_add_right (ih (m + 1 - csize) k2 (by omega) hk2) 1

theorem blocks_join : ∀ (sizes : List ℕ) (off : ℕ),
    (blocks off sizes).flatten = List.range' off sizes.sum := by
  intro sizes
  induction sizes with
  | nil => intro off; simp [blocks]
  | cons s rest ih =>
    intro off
    simp only [blocks, List.flatten_cons, List.sum_cons, ih]
    have h := List.range'_append off s rest.sum 1
    simp only [one_mul, Nat.add_comm rest.sum s] at h
    simpa using h

/-- **C9 (amended).** The tile scheduler splits the flat pixel index space of
size `len` into contiguous, pairwise disjoint, collectively exhaustive
chunks, at most one per worker, each of size `len / numThreads + 1` except
the last, which is smaller or equal (never larger). -/
theorem scheduler_partition (len n : ℕ) (hn : 0 < n) :
    (blocks 0 (schedulerChunks len n)).flatten = List.range len ∧
    (∀ i, i + 1 < (schedulerChunks len n).length →
      (schedulerChunks len n).getD i 0 = len / n + 1) ∧
    (∀ x ∈ schedulerChunks len n, x ≤ len / n + 1) ∧
    (schedulerChunks len n).length ≤ n := by
  have hc : 0 < len / n + 1 := Nat.succ_pos _
  have hsum : (chunkSizes (len / n + 1) len).sum = len :=
    chunkSizesAux_sum _ hc len len le_rfl
  refine ⟨?_, ?_, ?_, ?_⟩
  · rw [schedulerChunks, blocks_join, hsum, List.range_eq_range']
  · exact chunkSizesAux_getD _ hc len len le_rfl
  · exact chunkSizesAux_le _ hc len len le_rfl
  · apply chunkSizesAux_length_le _ hc len len n le_rfl
    have hmod : len % n < n := Nat.mod_lt len hn
    have h1 : n * (len / n) + len % n = len := Nat.div_add_mod len n
    have h2 : (len / n + 1) * n = len / n * n + n := Nat.succ_mul (len / n) n
    have h3 : n * (len / n) = len / n * n := Nat.mul_comm n (len / n)
    rw [h2, ← h3]
    generalize n * (len / n) = q at h1 ⊢
    generalize len % n = c at h1 hmod
    omega

/-- Witness for C9 (amended) at `len = 9`, `numThreads = 3`: the chunking
`[4, 4, 1]` covers `range 9`, has non-last chunks of size `9/3 + 1 = 4`,
every chunk at most 4, and at most 3 chunks. -/
theorem scheduler_partition_witness :
    (blocks 0 (schedulerChunks 9 3)).flatten = List.range 9 ∧
    (∀ i, i + 1 < (schedulerChunks 9 3).length →
      (schedulerChunks 9 3).getD i 0 = 9 / 3 + 1) ∧
    (∀ x ∈ schedulerChunks 9 3, x ≤ 9 / 3 + 1) ∧
    (schedulerChunks 9 3).length ≤ 3 :=
  scheduler_partition 9 3 (by norm_num)

/-- Counterexample for C9 as stated: the scheduler chunking of 9 pixels over
3 workers is `[4, 4, 1]` — the last chunk is strictly smaller than the
others, not larger; and over 4 pixels with 4 workers only 2 chunks are
produced, not one per worker. -/
theorem scheduler_last_chunk_smaller :
    schedulerChunks 9 3 = [4, 4, 1] ∧
    (schedulerChunks 9 3).getLastD 0 < (schedulerChunks 9 3).headD 0 ∧
    schedulerChunks 4 4 = [2, 2] ∧
    (schedulerChunks 4 4).length ≠ 4 := by decide

end RustRays
